import Mathlib

/-!
Shallow embedding of `src/job_agent.py` (job-posting aggregator) and proofs
about its keyword matcher, source adapters, merge/sort step and report writer.

Strings are modelled as `List Char`; Python dictionary fields that may be
missing are modelled as `Option`; the filesystem and the HTTP responses are
passed explicitly.  Only the ASCII fragment of Python's `str.lower` and of the
regex class `\w` is modelled, which covers all keyword and title data handled
by the program.
-/

namespace JobAgent

/-- Strings are modelled as lists of characters. -/
abbrev Str := List Char

/-- Word character in the sense of the regex class used by `contains_keyword`:
letter, digit or underscore. -/
def isWordChar (c : Char) : Bool := c.isAlphanum || c == '_'

/-- Characterwise lower-casing, modelling `str.lower()`. -/
def lowerStr (s : Str) : Str := s.map Char.toLower

/-- The literal pattern `k` (the `re.escape`d keyword) matches in `t` starting
at position `i`. -/
def occursAt (t k : Str) (i : Nat) : Bool := decide ((t.drop i).take k.length = k)

/-- The lookarounds of the pattern built in `contains_keyword`:
the character before position `i` (when there is one) is not a word character,
and the character after the matched keyword (when there is one) is not a word
character. -/
def boundaryAt (t k : Str) (i : Nat) : Bool :=
  (i == 0 || !(isWordChar (t.getD (i - 1) ' '))) &&
  (!(isWordChar (t.getD (i + k.length) ' ')))

/-- Semantics of `re.search` for the pattern used in `contains_keyword`:
some start position yields a literal match of `k` bounded by the two
lookarounds. -/
def reSearchWB (t k : Str) : Bool :=
  (List.range (t.length + 1)).any (fun i => occursAt t k i && boundaryAt t k i)

/-- Python's plain substring test `p in t`. -/
def containsSub (t p : Str) : Bool :=
  (List.range (t.length + 1)).any (fun i => occursAt t p i)

/-- `contains_keyword` from `src/job_agent.py`: returns `false` on empty or
absent text, otherwise lower-cases the text and searches each lower-cased
keyword as a whole word, returning `true` at the first hit. -/
def contains_keyword (text : Option Str) (keywords : List Str) : Bool :=
  match text with
  | none => false
  | some t =>
    if t.isEmpty then false
    else keywords.any (fun k => reSearchWB (lowerStr t) (lowerStr k))

/-- Specification-side predicate: `k` occurs in `t` at a position that is not
immediately preceded and not immediately followed by a word character. -/
def OccursAsWord (t k : Str) : Prop :=
  ∃ i, i + k.length ≤ t.length ∧ (t.drop i).take k.length = k ∧
    (i = 0 ∨ ∃ c, t[i - 1]? = some c ∧ isWordChar c = false) ∧
    (i + k.length = t.length ∨ ∃ c, t[i + k.length]? = some c ∧ isWordChar c = false)

theorem getD_of_getElem? {t : Str} {n : Nat} {c : Char} (h : t[n]? = some c)
    (d : Char) : t.getD n d = c := by
  simp [List.getD, h]

theorem getD_of_le_length {t : Str} {n : Nat} (h : t.length ≤ n) (d : Char) :
    t.getD n d = d := by
  simp [List.getD, List.getElem?_eq_none h]

/-- The executable regex search agrees with the specification-side occurrence
predicate. -/
theorem reSearchWB_iff {t k : Str} : reSearchWB t k = true ↔ OccursAsWord t k := by
  constructor
  · intro h
    rw [reSearchWB, List.any_eq_true] at h
    obtain ⟨i, hi, hb⟩ := h
    rw [Bool.and_eq_true] at hb
    obtain ⟨ho, hbd⟩ := hb
    rw [List.mem_range] at hi
    rw [occursAt, decide_eq_true_eq] at ho
    have hlen : i + k.length ≤ t.length := by
      have hl := congrArg List.length ho
      simp [List.length_take, List.length_drop] at hl
      omega
    rw [boundaryAt, Bool.and_eq_true] at hbd
    obtain ⟨h1, h2⟩ := hbd
    refine ⟨i, hlen, ho, ?_, ?_⟩
    · rcases Nat.eq_zero_or_pos i with h0 | h0
      · exact Or.inl h0
      · right
        have hlt : i - 1 < t.length := by omega
        refine ⟨t[i - 1], by simp [List.getElem?_eq_getElem hlt], ?_⟩
        rw [Bool.or_eq_true] at h1
        rcases h1 with h1 | h1
        · exfalso
          rw [beq_iff_eq] at h1
          omega
        · rw [getD_of_getElem? (List.getElem?_eq_getElem hlt) ' '] at h1
          simpa using h1
    · rcases Nat.lt_or_ge (i + k.length) t.length with hlt | hge
      · right
        refine ⟨t[i + k.length], by simp [List.getElem?_eq_getElem hlt], ?_⟩
        rw [getD_of_getElem? (List.getElem?_eq_getElem hlt) ' '] at h2
        simpa using h2
      · exact Or.inl (Nat.le_antisymm hlen hge)
  · intro h
    obtain ⟨i, hlen, ho, hleft, hright⟩ := h
    rw [reSearchWB, List.any_eq_true]
    refine ⟨i, List.mem_range.mpr (by omega), ?_⟩
    rw [Bool.and_eq_true]
    refine ⟨by rw [occursAt, decide_eq_true_eq]; exact ho, ?_⟩
    rw [boundaryAt, Bool.and_eq_true]
    constructor
    · rcases hleft with h0 | ⟨c, hc, hw⟩
      · subst h0; simp
      · rw [Bool.or_eq_true]
        right
        rw [getD_of_getElem? hc ' ', hw]
        rfl
    · rcases hright with h0 | ⟨c, hc, hw⟩
      · rw [h0, getD_of_le_length (Nat.le_refl _) ' ']
        decide
      · rw [getD_of_getElem? hc ' ', hw]
        rfl

/-- Module-level configuration `BASE_KEYWORDS`: the job title must contain at
least one of these. -/
def BASE_KEYWORDS : List Str :=
  ["DevSecOps", "Cloud Security", "Platform Engineering", "Infrastructure as Code",
   "Application Security", "Terraform", "AWS", "Security", "Cyber Security",
   "Information Security", "IT Security"].map String.toList

/-- Module-level configuration `NEGATIVE_KEYWORDS`: titles containing any of
these (as plain case-insensitive substrings) are dropped by the free-board
adapter. -/
def NEGATIVE_KEYWORDS : List Str :=
  ["Marketing", "Sales", "HR", "Recruiting", "Design", "Legal"].map String.toList

/-- Module-level configuration `JOB_RESULTS_DIR`. -/
def JOB_RESULTS_DIR : Str := "job_results".toList

/-- The normalized record shape appended by both adapters.  A `none` field
models a Python `None` value (missing upstream field carried through). -/
structure JobRecord where
  title : Option Str
  company : Option Str
  location : Option Str
  url : Option Str
  source : Str
deriving DecidableEq

/-- One posting of the ArbeitNow response list.  A field is `some v` when the
JSON object has the key and `none` when the key is missing, in which case the
program's `job['...']` access raises `KeyError`. -/
structure ANJob where
  title : Option Str
  company_name : Option Str
  location : Option Str
  url : Option Str
deriving DecidableEq

/-- The `is_garbage` test of the ArbeitNow loop:
`any(n.lower() in title.lower() for n in NEGATIVE_KEYWORDS)`. -/
def anGarbage (title : Str) : Bool :=
  NEGATIVE_KEYWORDS.any (fun n => containsSub (lowerStr title) (lowerStr n))

/-- The keep condition of the ArbeitNow loop: `is_match and not is_garbage`. -/
def anKeep (title : Str) : Bool :=
  contains_keyword (some title) BASE_KEYWORDS && !(anGarbage title)

/-- Python `job['key']` on a field: the value when present, `KeyError`
(modelled as `Except.error`) when absent. -/
def getKey (f : Option Str) : Except Unit Str :=
  match f with
  | some v => .ok v
  | none => .error ()

/-- The body of the ArbeitNow `for job in data` loop.  A `KeyError` raised by
any `job['...']` access escapes the loop and is caught by the adapter's
`except` clause, so the whole traversal is error-propagating. -/
def processAN : List ANJob → Except Unit (List JobRecord)
  | [] => .ok []
  | j :: rest =>
    match j.title with
    | none => .error ()
    | some title =>
      if anKeep title then
        match j.company_name, j.location, j.url with
        | some company, some location, some url =>
          match processAN rest with
          | .ok tail =>
            .ok ({ title := some title, company := some company,
                   location := some location, url := some url,
                   source := "ArbeitNow".toList } :: tail)
          | .error e => .error e
        | _, _, _ => .error ()
      else
        processAN rest

/-- `fetch_arbeitnow_jobs`, with the HTTP response passed explicitly as a
status code and the parsed `data` list.  On a non-200 status the `if` body is
skipped and the function falls through to `return []`; an exception inside the
loop is caught by `except` and also yields `[]`. -/
def fetch_arbeitnow_jobs (statusCode : Nat) (data : List ANJob) : List JobRecord :=
  if statusCode == 200 then
    match processAN data with
    | .ok l => l
    | .error _ => []
  else []

/-- One structured related link of a SerpApi result item. -/
structure RelLink where
  link : Option Str
deriving DecidableEq

/-- One item of the SerpApi `jobs_results` list; every field is read with
`.get`, so missing keys are carried as `none` and never raise. -/
structure SPJob where
  title : Option Str
  company_name : Option Str
  location : Option Str
  via : Option Str
  share_link : Option Str
  related_links : Option (List RelLink)
deriving DecidableEq

/-- The body of the SerpApi result loop for a single item: keep the item when
its title passes `contains_keyword`, resolving the outbound link by preferring
the first related link and tagging the record with the `via` label
(default `"Google Jobs"`). -/
def serpRecord (j : SPJob) : Option JobRecord :=
  if contains_keyword j.title BASE_KEYWORDS then
    some { title := j.title
         , company := j.company_name
         , location := j.location
         , url :=
             match j.related_links with
             | some (r :: _) => r.link.or j.share_link
             | _ => j.share_link
         , source := j.via.getD ("Google Jobs".toList) }
  else none

/-- `fetch_serpapi_jobs`, with the HTTP response passed explicitly.  The second
component of the result counts the network requests performed: `0` on the
missing-key short-circuit, `1` otherwise.  `if not api_key` is true for both an
absent key and an empty-string key. -/
def fetch_serpapi_jobs (api_key : Option Str) (statusCode : Nat)
    (results : List SPJob) : List JobRecord × Nat :=
  if (api_key.getD []).isEmpty then ([], 0)
  else if statusCode == 200 then (results.filterMap serpRecord, 1)
  else ([], 1)

/-- Lexicographic code-point comparison of strings, the ordering Python's
`list.sort` applies to the `source` keys. -/
def strLe : Str → Str → Bool
  | [], _ => true
  | _ :: _, [] => false
  | a :: as, b :: bs =>
    if a.toNat < b.toNat then true
    else if b.toNat < a.toNat then false
    else strLe as bs

/-- The sort key comparison of `save_results`: by the `source` field. -/
def jobLe (a b : JobRecord) : Bool := strLe a.source b.source

theorem strLe_refl (a : Str) : strLe a a = true := by
  induction a with
  | nil => rfl
  | cons c cs ih => simp [strLe, ih]

theorem strLe_total (a b : Str) : strLe a b || strLe b a := by
  induction a generalizing b with
  | nil => simp [strLe]
  | cons c cs ih =>
    cases b with
    | nil => simp [strLe]
    | cons d ds =>
      by_cases h1 : c.toNat < d.toNat
      · simp [strLe, h1]
      · by_cases h2 : d.toNat < c.toNat
        · simp [strLe, h1, h2]
        · simpa [strLe, h1, h2] using ih ds

theorem strLe_trans {a b c : Str} (h1 : strLe a b) (h2 : strLe b c) :
    strLe a c = true := by
  induction a generalizing b c with
  | nil => simp [strLe]
  | cons x xs ih =>
    cases b with
    | nil => simp [strLe] at h1
    | cons y ys =>
      cases c with
      | nil => simp [strLe] at h2
      | cons z zs =>
        rw [strLe] at h1 h2 ⊢
        by_cases hxy : x.toNat < y.toNat
        · by_cases hyz : y.toNat < z.toNat
          · simp [show x.toNat < z.toNat by omega]
          · by_cases hzy : z.toNat < y.toNat
            · simp [hyz, hzy] at h2
            · have : y.toNat = z.toNat := by omega
              simp [show x.toNat < z.toNat by omega]
        · by_cases hyx : y.toNat < x.toNat
          · simp [hxy, hyx] at h1
          · have hxe : x.toNat = y.toNat := by omega
            by_cases hyz : y.toNat < z.toNat
            · simp [show x.toNat < z.toNat by omega]
            · by_cases hzy : z.toNat < y.toNat
              · simp [hyz, hzy] at h2
              · simp only [hxy, hyx, if_neg, ite_false] at h1
                simp only [hyz, hzy, if_neg, ite_false] at h2
                simp [show ¬ x.toNat < z.toNat by omega,
                      show ¬ z.toNat < x.toNat by omega,
                      ih h1 h2]

theorem jobLe_total (a b : JobRecord) : jobLe a b || jobLe b a :=
  strLe_total a.source b.source

theorem jobLe_trans (a b c : JobRecord) (h1 : jobLe a b) (h2 : jobLe b c) :
    jobLe a c := strLe_trans h1 h2

/-- Decimal rendering of a natural number, modelling Python's string
formatting of `len(jobs)`. -/
def natStr (n : Nat) : Str := (toString n).toList

/-- The calendar date delivered by `datetime.now()`; only the fields the
program formats are modelled. -/
structure Date where
  year : Nat
  month : Nat
  day : Nat
deriving DecidableEq

/-- Zero-padded two-digit field of `strftime` (`%d`, `%m`, `%y`). -/
def pad2 (n : Nat) : Str := if n < 10 then '0' :: natStr n else natStr n

/-- Zero-padded four-digit year field of `strftime` (`%Y`). -/
def pad4 (n : Nat) : Str := List.replicate (4 - (natStr n).length) '0' ++ natStr n

/-- `strftime("%d%m%y")`. -/
def fmtDDMMYY (d : Date) : Str := pad2 d.day ++ pad2 d.month ++ pad2 (d.year % 100)

/-- `strftime("%Y-%m-%d")`. -/
def fmtYMD (d : Date) : Str :=
  pad4 d.year ++ "-".toList ++ pad2 d.month ++ "-".toList ++ pad2 d.day

/-- Rendering of an optional field inside an f-string: Python prints `None`
for an absent value. -/
def optStr (o : Option Str) : Str := o.getD ("None".toList)

/-- The five-line block plus trailing dashes written for one job. -/
def renderJob (j : JobRecord) : Str :=
  "Role:     ".toList ++ optStr j.title ++ "\n".toList ++
  "Company:  ".toList ++ optStr j.company ++ "\n".toList ++
  "Location: ".toList ++ optStr j.location ++ "\n".toList ++
  "Source:   ".toList ++ j.source ++ "\n".toList ++
  "Link:     ".toList ++ optStr j.url ++ "\n".toList ++
  List.replicate 50 '-' ++ "\n".toList

/-- The report's first line. -/
def headerLine (now : Date) : Str :=
  "JOB SEARCH REPORT - ".toList ++ fmtYMD now ++ "\n".toList

/-- The report's total-count line. -/
def totalLine (n : Nat) : Str := "Total Jobs Found: ".toList ++ natStr n ++ "\n".toList

/-- The fixed-width separator written after the header. -/
def sepLine : Str := List.replicate 50 '=' ++ "\n\n".toList

/-- The line written instead of job blocks when the list is empty. -/
def noJobsLine : Str := "No new matching jobs found in the last 24h.\n".toList

/-- The full file content written by `save_results` for an (already sorted)
job list. -/
def reportContent (jobs : List JobRecord) (now : Date) : Str :=
  headerLine now ++ totalLine jobs.length ++ sepLine ++
  (if jobs.isEmpty then noJobsLine else []) ++
  (jobs.map renderJob).flatten

/-- The filesystem state visible to `save_results`: the set of directories and
the file contents. -/
structure FS where
  dirs : List Str
  files : Str → Option Str

/-- Everything `save_results` does: the new filesystem, the path and content
written, the in-place sorted list the caller's variable now holds, the lines
printed, and the function's return value (Python's implicit `None`). -/
structure SaveOutcome where
  fs : FS
  filepath : Str
  content : Str
  jobs_after : List JobRecord
  log : List Str
  ret : Option Str

/-- `save_results` from `src/job_agent.py`: ensures the results directory,
computes the `DDMMYY_Result.txt` path, sorts the caller's list in place by
`source`, opens the file in mode `"w"` (full overwrite) and writes the report.
The function has no `return` statement, so `ret` is `none`. -/
def save_results (fs : FS) (jobs : List JobRecord) (now : Date) : SaveOutcome :=
  let fs1 : FS :=
    if fs.dirs.contains JOB_RESULTS_DIR then fs
    else { dirs := JOB_RESULTS_DIR :: fs.dirs, files := fs.files }
  let filepath := JOB_RESULTS_DIR ++ "/".toList ++ fmtDDMMYY now ++ "_Result.txt".toList
  let sorted := jobs.mergeSort jobLe
  let content := reportContent sorted now
  { fs := { dirs := fs1.dirs
          , files := fun q => if q = filepath then some content else fs1.files q }
  , filepath := filepath
  , content := content
  , jobs_after := sorted
  , log := ["Successfully saved ".toList ++ natStr sorted.length ++
            " jobs to ".toList ++ filepath]
  , ret := none }

/-- `main`: fetch from both adapters, concatenate in fixed order (free board
first, aggregator second) and hand the merged list to `save_results`. -/
def main_run (env_key : Option Str) (anSc : Nat) (anData : List ANJob)
    (spSc : Nat) (spResults : List SPJob) (fs : FS) (now : Date) : SaveOutcome :=
  save_results fs
    (fetch_arbeitnow_jobs anSc anData ++ (fetch_serpapi_jobs env_key spSc spResults).1)
    now

/-- Index of the first occurrence of `p` as a substring of `t`. -/
def subIdx (t p : Str) : Option Nat :=
  (List.range (t.length + 1)).find? (fun i => occursAt t p i)

/-- Both `p` and `q` occur in `t` and the first occurrence of `p` starts
strictly before the first occurrence of `q`. -/
def subBefore (t p q : Str) : Bool :=
  match subIdx t p, subIdx t q with
  | some a, some b => decide (a < b)
  | _, _ => false

/-- C1: for every text `T` and keyword `K`, `contains_keyword T [K]` is true
iff the lower-cased `K` occurs in the lower-cased `T` at a position not
immediately preceded and not immediately followed by a word character; empty
or absent text yields `false` for every keyword set; and a match on the first
keyword decides the result regardless of the remaining keywords. -/
theorem contains_keyword_spec (T : Option Str) (K : Str) :
    (contains_keyword T [K] = true ↔
      ∃ t, T = some t ∧ t ≠ [] ∧ OccursAsWord (lowerStr t) (lowerStr K))
    ∧ (∀ ks, contains_keyword none ks = false ∧ contains_keyword (some []) ks = false)
    ∧ (∀ ks, contains_keyword T [K] = true → contains_keyword T (K :: ks) = true) := by
  refine ⟨?_, ?_, ?_⟩
  · cases T with
    | none => simp [contains_keyword]
    | some t =>
      cases t with
      | nil => simp [contains_keyword]
      | cons c cs =>
        rw [contains_keyword]
        simp only [List.isEmpty_cons, Bool.false_eq_true, if_false,
          List.any_cons, List.any_nil, Bool.or_false]
        rw [reSearchWB_iff]
        constructor
        · intro h
          exact ⟨c :: cs, rfl, by simp, h⟩
        · rintro ⟨t, ht, -, h⟩
          injection ht with ht
          rw [ht]
          exact h
  · intro ks
    exact ⟨rfl, by simp [contains_keyword]⟩
  · intro ks h
    cases T with
    | none => simp [contains_keyword] at h
    | some t =>
      rw [contains_keyword] at h ⊢
      cases he : t.isEmpty with
      | true => rw [he] at h; simp at h
      | false =>
        rw [he] at h
        simp only [Bool.false_eq_true, if_false, List.any_cons, List.any_nil,
          Bool.or_false] at h
        simp [h]

/-- Witness for C1: a concrete keyword-list match decided through the
short-circuit conjunct of `contains_keyword_spec`. -/
theorem contains_keyword_spec_witness :
    contains_keyword (some ("AWS Engineer".toList))
      ["AWS".toList, "Security".toList] = true :=
  (contains_keyword_spec (some ("AWS Engineer".toList)) ("AWS".toList)).2.2
    ["Security".toList] (by decide)

theorem mergeSort_filter_source (l : List JobRecord) (s : Str) :
    (l.mergeSort jobLe).filter (fun j => j.source == s)
      = l.filter (fun j => j.source == s) := by
  have hmemp : ∀ x ∈ l.filter (fun j => j.source == s), x.source == s :=
    fun x hx => by simpa using List.of_mem_filter hx
  have hpair : (l.filter (fun j => j.source == s)).Pairwise fun a b => jobLe a b := by
    refine List.pairwise_of_forall_mem_list ?_
    intro a ha b hb
    have ha2 : a.source = s := by simpa using List.of_mem_filter ha
    have hb2 : b.source = s := by simpa using List.of_mem_filter hb
    show jobLe a b = true
    rw [jobLe, ha2, hb2]
    exact strLe_refl s
  have hsub : List.Sublist (l.filter (fun j => j.source == s)) (l.mergeSort jobLe) :=
    List.sublist_mergeSort (fun a b c => jobLe_trans a b c) jobLe_total hpair
      (List.filter_sublist l)
  have hsub2 : List.Sublist (l.filter (fun j => j.source == s))
      ((l.mergeSort jobLe).filter (fun j => j.source == s)) := by
    have h3 := hsub.filter (fun j => j.source == s)
    rwa [List.filter_eq_self.mpr hmemp] at h3
  have hperm : ((l.mergeSort jobLe).filter (fun j => j.source == s)).Perm
      (l.filter (fun j => j.source == s)) :=
    (List.mergeSort_perm l jobLe).filter _
  exact (hsub2.eq_of_length hperm.length_eq.symm).symm

/-- C10: the report writer hands the caller back (in the mutated variable) the
same records, reordered by the stable sort on `source`, with no record's
fields changed: the post-state is a permutation of the input list, sorted by
`source`. -/
theorem save_results_frame (fs : FS) (jobs : List JobRecord) (now : Date) :
    (save_results fs jobs now).jobs_after = jobs.mergeSort jobLe
    ∧ (save_results fs jobs now).jobs_after.Perm jobs
    ∧ (save_results fs jobs now).jobs_after.Pairwise (fun a b => jobLe a b = true) := by
  refine ⟨rfl, List.mergeSort_perm jobs jobLe, ?_⟩
  have h : (jobs.mergeSort jobLe).Pairwise (fun a b => jobLe a b = true) :=
    List.sorted_mergeSort (fun a b c => jobLe_trans a b c) jobLe_total jobs
  exact h

/-- C3: the sequence the report writer renders is the concatenation of the two
adapter outputs (free board first, aggregator second), sorted by `source` in
ascending lexicographic order, and the sort is stable: records with equal
`source` keep their original relative order. -/
theorem merged_sorted_stable (an sp : List JobRecord) (fs : FS) (now : Date) :
    (save_results fs (an ++ sp) now).jobs_after.Perm (an ++ sp)
    ∧ (save_results fs (an ++ sp) now).jobs_after.Pairwise
        (fun a b => strLe a.source b.source = true)
    ∧ ∀ s : Str,
        (save_results fs (an ++ sp) now).jobs_after.filter (fun j => j.source == s)
          = (an ++ sp).filter (fun j => j.source == s) := by
  refine ⟨List.mergeSort_perm _ _, ?_, fun s => mergeSort_filter_source _ s⟩
  have h : ((an ++ sp).mergeSort jobLe).Pairwise (fun a b => jobLe a b = true) :=
    List.sorted_mergeSort (fun a b c => jobLe_trans a b c) jobLe_total (an ++ sp)
  simpa [jobLe] using h

theorem processAN_sound (data : List ANJob) :
    ∀ (res : List JobRecord), processAN data = .ok res →
    ∀ r ∈ res, r.source = "ArbeitNow".toList ∧
      ∃ t, r.title = some t ∧ contains_keyword (some t) BASE_KEYWORDS = true
        ∧ anGarbage t = false := by
  induction data with
  | nil =>
    intro res h r hr
    rw [processAN] at h
    injection h with h
    rw [← h] at hr
    cases hr
  | cons j rest ih =>
    intro res h r hr
    rw [processAN] at h
    cases ht : j.title with
    | none => rw [ht] at h; cases h
    | some title =>
      rw [ht] at h
      dsimp only at h
      by_cases hk : anKeep title
      · rw [if_pos hk] at h
        cases hc : j.company_name with
        | none => rw [hc] at h; cases h
        | some company =>
          cases hl : j.location with
          | none => rw [hc, hl] at h; cases h
          | some location =>
            cases hu : j.url with
            | none => rw [hc, hl, hu] at h; cases h
            | some url =>
              rw [hc, hl, hu] at h
              cases hrest : processAN rest with
              | error e => rw [hrest] at h; cases h
              | ok tail =>
                rw [hrest] at h
                injection h with h
                rw [← h] at hr
                rcases List.mem_cons.mp hr with hr | hr
                · subst hr
                  refine ⟨rfl, title, rfl, ?_, ?_⟩
                  · have := (Bool.and_eq_true _ _).mp hk
                    exact this.1
                  · have := (Bool.and_eq_true _ _).mp hk
                    simpa using this.2
                · exact ih tail hrest r hr
      · rw [if_neg hk] at h
        exact ih res h r hr

theorem serpRecord_sound {j : SPJob} {r : JobRecord} (h : serpRecord j = some r) :
    r.title = j.title ∧ r.company = j.company_name ∧ r.location = j.location ∧
    contains_keyword r.title BASE_KEYWORDS = true := by
  rw [serpRecord] at h
  by_cases hc : contains_keyword j.title BASE_KEYWORDS
  · rw [if_pos hc] at h
    injection h with h
    rw [← h]
    exact ⟨rfl, rfl, rfl, hc⟩
  · rw [if_neg hc] at h
    cases h

/-- C2: every record produced by the free-board adapter has a title that
matches a positive keyword and contains no negative keyword as a
case-insensitive substring; every record produced by the aggregator adapter
has a title matching a positive keyword; hence every record the report writer
renders has a title matching a positive keyword. -/
theorem report_invariant (anSc : Nat) (anData : List ANJob) (key : Option Str)
    (spSc : Nat) (spResults : List SPJob) (fs : FS) (now : Date) :
    (∀ r ∈ fetch_arbeitnow_jobs anSc anData,
       ∃ t, r.title = some t ∧ contains_keyword (some t) BASE_KEYWORDS = true
         ∧ anGarbage t = false)
    ∧ (∀ r ∈ (fetch_serpapi_jobs key spSc spResults).1,
       contains_keyword r.title BASE_KEYWORDS = true)
    ∧ (∀ r ∈ (save_results fs
        (fetch_arbeitnow_jobs anSc anData ++ (fetch_serpapi_jobs key spSc spResults).1)
        now).jobs_after,
       contains_keyword r.title BASE_KEYWORDS = true) := by
  have han : ∀ r ∈ fetch_arbeitnow_jobs anSc anData,
      ∃ t, r.title = some t ∧ contains_keyword (some t) BASE_KEYWORDS = true
        ∧ anGarbage t = false := by
    intro r hr
    rw [fetch_arbeitnow_jobs] at hr
    by_cases hs : (anSc == 200) = true
    · rw [if_pos hs] at hr
      cases hp : processAN anData with
      | error e => rw [hp] at hr; cases hr
      | ok l =>
        rw [hp] at hr
        exact (processAN_sound anData l hp r hr).2
    · rw [if_neg hs] at hr; cases hr
  have hsp : ∀ r ∈ (fetch_serpapi_jobs key spSc spResults).1,
      contains_keyword r.title BASE_KEYWORDS = true := by
    intro r hr
    rw [fetch_serpapi_jobs] at hr
    by_cases hk : (key.getD []).isEmpty = true
    · rw [if_pos hk] at hr; cases hr
    · rw [if_neg hk] at hr
      by_cases hs : (spSc == 200) = true
      · rw [if_pos hs] at hr
        obtain ⟨j, -, hj⟩ := List.mem_filterMap.mp hr
        exact (serpRecord_sound hj).2.2.2
      · rw [if_neg hs] at hr; cases hr
  refine ⟨han, hsp, ?_⟩
  intro r hr
  have hr2 : r ∈ fetch_arbeitnow_jobs anSc anData
      ++ (fetch_serpapi_jobs key spSc spResults).1 := List.mem_mergeSort.mp hr
  rcases List.mem_append.mp hr2 with hr3 | hr3
  · obtain ⟨t, ht, hck, -⟩ := han r hr3
    rw [ht]
    exact hck
  · exact hsp r hr3

/-- Concrete filesystem start state used by the closed theorems. -/
def fs0 : FS := { dirs := [], files := fun _ => none }

/-- Concrete calendar date used by the closed theorems. -/
def d0 : Date := { year := 2026, month := 1, day := 2 }

/-- A well-formed ArbeitNow posting whose title matches a positive keyword. -/
def anJob0 : ANJob :=
  { title := some ("DevSecOps Werkstudent".toList)
  , company_name := some ("ACME GmbH".toList)
  , location := some ("Berlin".toList)
  , url := some ("urlA".toList) }

/-- The record the free-board adapter produces from `anJob0`. -/
def anRec0 : JobRecord :=
  { title := some ("DevSecOps Werkstudent".toList)
  , company := some ("ACME GmbH".toList)
  , location := some ("Berlin".toList)
  , url := some ("urlA".toList)
  , source := "ArbeitNow".toList }

/-- Witness for C2: the invariant instantiated on a concrete adapter run. -/
theorem report_invariant_witness :
    ∃ t, anRec0.title = some t ∧ contains_keyword (some t) BASE_KEYWORDS = true
      ∧ anGarbage t = false :=
  (report_invariant 200 [anJob0] none 200 [] fs0 d0).1 anRec0 (by decide)

/-- C5: with an absent or empty API key the aggregator adapter short-circuits,
returning the empty sequence and performing zero network requests, whatever
the (never-issued) response would have contained. -/
theorem serpapi_no_key (key : Option Str) (sc : Nat) (results : List SPJob)
    (h : key = none ∨ key = some []) :
    fetch_serpapi_jobs key sc results = ([], 0) := by
  rcases h with h | h <;> subst h <;> rfl

/-- A SerpApi result item used by the closed theorems. -/
def spJob0 : SPJob :=
  { title := some ("Cloud Security Intern".toList)
  , company_name := none
  , location := none
  , via := some ("via LinkedIn".toList)
  , share_link := some ("shareL".toList)
  , related_links := none }

/-- Witness for C5 at a concrete absent key and a nonempty pending response. -/
theorem serpapi_no_key_witness :
    fetch_serpapi_jobs none 200 [spJob0] = ([], 0) :=
  serpapi_no_key none 200 [spJob0] (Or.inl rfl)

theorem containsSub_append_left {b p : Str} (a : Str) (h : containsSub b p = true) :
    containsSub (a ++ b) p = true := by
  rw [containsSub, List.any_eq_true] at h ⊢
  obtain ⟨i, hi, ho⟩ := h
  rw [List.mem_range] at hi
  refine ⟨a.length + i, ?_, ?_⟩
  · rw [List.mem_range, List.length_append]
    omega
  · rw [occursAt, decide_eq_true_eq] at ho ⊢
    have hd : (a ++ b).drop (a.length + i) = b.drop i := by
      rw [← List.drop_drop, List.drop_left]
    rw [hd]
    exact ho

theorem containsSub_self (p : Str) : containsSub p p = true := by
  rw [containsSub, List.any_eq_true]
  refine ⟨0, by simp, ?_⟩
  simp [occursAt]

/-- C6: on the empty job list the report writer produces exactly the header,
the total-count line reporting 0, the separator and the explicit
no-jobs-found line — in particular the content contains the zero-count line
and the no-jobs line, and no per-job block. -/
theorem save_results_empty_report (fs : FS) (now : Date) :
    (save_results fs [] now).content
      = headerLine now ++ (totalLine 0 ++ (sepLine ++ noJobsLine))
    ∧ containsSub (save_results fs [] now).content (totalLine 0) = true
    ∧ containsSub (save_results fs [] now).content noJobsLine = true := by
  have hc : (save_results fs [] now).content
      = headerLine now ++ (totalLine 0 ++ (sepLine ++ noJobsLine)) := by
    show reportContent ([].mergeSort jobLe) now = _
    rw [List.mergeSort_nil]
    simp [reportContent, List.append_assoc]
  refine ⟨hc, ?_, ?_⟩
  · rw [hc]
    exact containsSub_append_left _ (by decide)
  · rw [hc]
    exact containsSub_append_left _ (by decide)

/-- C7: two invocations of the report writer on the same calendar date compute
the same path `job_results/DDMMYY_Result.txt`, and after the second
invocation the file holds exactly the second report — the first write is
fully replaced, not appended to. -/
theorem save_results_same_day (fs : FS) (j1 j2 : List JobRecord) (now : Date) :
    (save_results fs j1 now).filepath
        = (save_results (save_results fs j1 now).fs j2 now).filepath
    ∧ (save_results fs j1 now).filepath
        = JOB_RESULTS_DIR ++ "/".toList ++ fmtDDMMYY now ++ "_Result.txt".toList
    ∧ (save_results (save_results fs j1 now).fs j2 now).fs.files
          (save_results fs j1 now).filepath
        = some ((save_results (save_results fs j1 now).fs j2 now).content)
    ∧ (save_results (save_results fs j1 now).fs j2 now).content
        = reportContent (j2.mergeSort jobLe) now := by
  refine ⟨rfl, rfl, ?_, rfl⟩
  show (if (JOB_RESULTS_DIR ++ "/".toList ++ fmtDDMMYY now ++ "_Result.txt".toList)
        = (JOB_RESULTS_DIR ++ "/".toList ++ fmtDDMMYY now ++ "_Result.txt".toList)
      then some (reportContent (j2.mergeSort jobLe) now) else _) = _
  rw [if_pos rfl]
  rfl

/-- C9 fails on the code: `save_results` has no `return` statement, so it
returns `None` rather than the path it wrote. -/
theorem save_results_ret_counterexample :
    (save_results fs0 [] d0).ret = none
    ∧ (save_results fs0 [] d0).ret ≠ some ((save_results fs0 [] d0).filepath) := by
  refine ⟨rfl, ?_⟩
  intro h
  exact Option.noConfusion h

/-- C9 amended: the report writer returns `None`; the path it wrote appears
only in the log line it prints. -/
theorem save_results_ret_amended (fs : FS) (jobs : List JobRecord) (now : Date) :
    (save_results fs jobs now).ret = none
    ∧ containsSub ((save_results fs jobs now).log.headD [])
        ((save_results fs jobs now).filepath) = true := by
  refine ⟨rfl, ?_⟩
  show containsSub
    (("Successfully saved ".toList ++ natStr ((jobs.mergeSort jobLe)).length
      ++ " jobs to ".toList)
      ++ (JOB_RESULTS_DIR ++ "/".toList ++ fmtDDMMYY now ++ "_Result.txt".toList)) _ = true
  exact containsSub_append_left _ (containsSub_self _)

/-- The single record of the first (free-board) adapter output in the spec's
end-to-end scenario. -/
def c4an : JobRecord :=
  { title := some ("DevSecOps Werkstudent".toList), company := none
  , location := none, url := none, source := "ArbeitNow".toList }

/-- The single record of the second (aggregator) adapter output in the spec's
end-to-end scenario. -/
def c4li : JobRecord :=
  { title := some ("Cloud Security Intern".toList), company := none
  , location := none, url := none, source := "via LinkedIn".toList }

theorem c4_sorted : ([c4an] ++ [c4li]).mergeSort jobLe = [c4an, c4li] := by
  apply List.mergeSort_of_sorted
  refine List.pairwise_cons.mpr ⟨?_, List.pairwise_singleton _ _⟩
  intro b hb
  rw [List.mem_singleton.mp hb]
  decide

theorem c4_content_eq :
    (save_results fs0 ([c4an] ++ [c4li]) d0).content
      = reportContent [c4an, c4li] d0 := by
  show reportContent (([c4an] ++ [c4li]).mergeSort jobLe) d0 = _
  rw [c4_sorted]

theorem c4_jobs_after :
    (save_results fs0 ([c4an] ++ [c4li]) d0).jobs_after = [c4an, c4li] := c4_sorted

set_option maxRecDepth 100000 in
/-- C4 fails on the code: at the spec's end-to-end input the written report
lists the `ArbeitNow` record before the `via LinkedIn` record, because the
ascending code-point sort puts `"ArbeitNow"` first — not the other way round
as the claim states. -/
theorem c4_order_counterexample :
    subBefore (save_results fs0 ([c4an] ++ [c4li]) d0).content
        ("Source:   via LinkedIn".toList) ("Source:   ArbeitNow".toList) = false
    ∧ subBefore (save_results fs0 ([c4an] ++ [c4li]) d0).content
        ("Source:   ArbeitNow".toList) ("Source:   via LinkedIn".toList) = true := by
  rw [c4_content_eq]
  constructor <;> decide

set_option maxRecDepth 100000 in
/-- C4 amended: at that input the written report lists the `ArbeitNow` record
before the `via LinkedIn` record (ascending lexicographic order on `source`)
and reports a total count of 2. -/
theorem c4_order_amended :
    (save_results fs0 ([c4an] ++ [c4li]) d0).jobs_after.map (fun r => r.source)
      = ["ArbeitNow".toList, "via LinkedIn".toList]
    ∧ subBefore (save_results fs0 ([c4an] ++ [c4li]) d0).content
        ("Source:   ArbeitNow".toList) ("Source:   via LinkedIn".toList) = true
    ∧ containsSub (save_results fs0 ([c4an] ++ [c4li]) d0).content (totalLine 2) = true := by
  rw [c4_content_eq, c4_jobs_after]
  refine ⟨by decide, by decide, by decide⟩

/-- An ArbeitNow posting whose title matches a positive keyword but whose
company key is missing. -/
def anBad0 : ANJob :=
  { title := some ("AWS Engineer".toList), company_name := none
  , location := some ("Berlin".toList), url := some ("urlB".toList) }

/-- C8 fails on the free-board adapter: one record with a missing company key
empties the whole batch (the `KeyError` escapes the loop into `except`), even
though the same batch without that record yields a result. -/
theorem missing_field_counterexample :
    fetch_arbeitnow_jobs 200 [anJob0, anBad0] = []
    ∧ fetch_arbeitnow_jobs 200 [anJob0] = [anRec0] := by
  constructor <;> decide

/-- A posting on which the ArbeitNow loop raises `KeyError`: its title key is
missing, or it passes both filters and one of the other extracted keys is
missing. -/
def anRaises (j : ANJob) : Prop :=
  j.title = none ∨ ∃ t, j.title = some t ∧ anKeep t = true ∧
    (j.company_name = none ∨ j.location = none ∨ j.url = none)

theorem processAN_error (data : List ANJob)
    (h : ∃ j, j ∈ data ∧ anRaises j) : processAN data = .error () := by
  induction data with
  | nil =>
    obtain ⟨j, hj, -⟩ := h
    cases hj
  | cons x rest ih =>
    obtain ⟨j, hj, hraise⟩ := h
    rw [processAN]
    cases ht : x.title with
    | none => rfl
    | some title =>
      dsimp only
      by_cases hk : anKeep title
      · rw [if_pos hk]
        rcases List.mem_cons.mp hj with rfl | hjr
        · rcases hraise with h0 | ⟨t, ht2, -, hfields⟩
          · rw [ht] at h0
            cases h0
          · rw [ht] at ht2
            injection ht2 with ht2
            subst ht2
            cases hc : j.company_name with
            | none => rfl
            | some company =>
              cases hl : j.location with
              | none => rfl
              | some location =>
                cases hu : j.url with
                | none => rfl
                | some url =>
                  exfalso
                  rcases hfields with hf | hf | hf
                  · rw [hc] at hf; cases hf
                  · rw [hl] at hf; cases hf
                  · rw [hu] at hf; cases hf
        · have herr := ih ⟨j, hjr, hraise⟩
          cases hc : x.company_name with
          | none => rfl
          | some company =>
            cases hl : x.location with
            | none => rfl
            | some location =>
              cases hu : x.url with
              | none => rfl
              | some url =>
                rw [herr]
      · rw [if_neg hk]
        rcases List.mem_cons.mp hj with rfl | hjr
        · rcases hraise with h0 | ⟨t, ht2, hk2, -⟩
          · rw [ht] at h0
            cases h0
          · rw [ht] at ht2
            injection ht2 with ht2
            subst ht2
            exact absurd hk2 hk
        · exact ih ⟨j, hjr, hraise⟩

/-- C8 amended: the aggregator adapter tolerates missing fields, carrying them
through as absent in the output record without aborting the batch, while in
the free-board adapter a missing key in any processed record empties the whole
batch. -/
theorem missing_field_amended :
    (∀ (key : Option Str) (sc : Nat) (results : List SPJob),
      ∀ r ∈ (fetch_serpapi_jobs key sc results).1,
        ∃ j, j ∈ results ∧ r.title = j.title ∧ r.company = j.company_name
          ∧ r.location = j.location)
    ∧ (∀ data : List ANJob, (∃ j, j ∈ data ∧ anRaises j) →
        fetch_arbeitnow_jobs 200 data = []) := by
  constructor
  · intro key sc results r hr
    rw [fetch_serpapi_jobs] at hr
    by_cases hk : (key.getD []).isEmpty = true
    · rw [if_pos hk] at hr
      cases hr
    · rw [if_neg hk] at hr
      by_cases hs : (sc == 200) = true
      · rw [if_pos hs] at hr
        obtain ⟨j, hj, hjr⟩ := List.mem_filterMap.mp hr
        obtain ⟨h1, h2, h3, -⟩ := serpRecord_sound hjr
        exact ⟨j, hj, h1, h2, h3⟩
      · rw [if_neg hs] at hr
        cases hr
  · intro data h
    rw [fetch_arbeitnow_jobs, processAN_error data h]
    rfl

/-- Witness for C8's amended claim: the abort branch applied to a concrete
batch holding one well-formed and one company-less posting. -/
theorem missing_field_amended_witness :
    fetch_arbeitnow_jobs 200 [anJob0, anBad0] = [] :=
  missing_field_amended.2 [anJob0, anBad0]
    ⟨anBad0, by decide, Or.inr ⟨"AWS Engineer".toList, rfl, by decide, Or.inl rfl⟩⟩

end JobAgent
